import Mathlib

/-!
Verification of the CipherTalk decrypt bridge.

A shallow embedding of the worker-thread decrypt service — the task
dispatcher (`NativeDecryptService`), the execution worker's `decrypt`
message handler, and the progress throttle — together with the trivial
key validator (`WeChatDecryptService.validateKey`) and the bounded
`LRUCache`, with theorems about the specified behaviour.

Machine integers of the source (`Date.now()` timestamps, progress
counters, native status codes) are modelled as `Int`; JavaScript `Map`
objects as insertion-ordered association lists; exceptions by their
`String(err)` form; the nondeterministic environment (filesystem, the
native library, `Math.random`) by explicit parameters.
-/

namespace CipherTalk

/-! ## Association-list model of a JavaScript `Map`

A JS `Map` preserves insertion order; `set` on an existing key updates
the value in place, otherwise appends a new entry at the end; `delete`
removes the entry with the key; iteration starts at the oldest entry.
-/

variable {K V : Type}

/-- `Map.get`: the value of the entry with the given key, if any. -/
def aGet [DecidableEq K] : List (K × V) → K → Option V
  | [], _ => none
  | p :: ps, k => if p.1 = k then some p.2 else aGet ps k

/-- `Map.has`. -/
def aHas [DecidableEq K] (m : List (K × V)) (k : K) : Bool :=
  (aGet m k).isSome

/-- `Map.delete`: removes the (first) entry with the given key. -/
def aDelete [DecidableEq K] : List (K × V) → K → List (K × V)
  | [], _ => []
  | p :: ps, k => if p.1 = k then ps else p :: aDelete ps k

/-- `Map.set`: updates in place when the key is present, otherwise
appends the new entry at the end. -/
def aSet [DecidableEq K] : List (K × V) → K → V → List (K × V)
  | [], k, v => [(k, v)]
  | p :: ps, k, v => if p.1 = k then (k, v) :: ps else p :: aSet ps k v

theorem aGet_aSet_self [DecidableEq K] (m : List (K × V)) (k : K) (v : V) :
    aGet (aSet m k v) k = some v := by
  induction m with
  | nil => simp [aSet, aGet]
  | cons p ps ih =>
    by_cases h : p.1 = k
    · simp [aSet, aGet, h]
    · simp [aSet, aGet, h, ih]

theorem length_aSet_le [DecidableEq K] (m : List (K × V)) (k : K) (v : V) :
    (aSet m k v).length ≤ m.length + 1 := by
  induction m with
  | nil => simp [aSet]
  | cons p ps ih =>
    by_cases h : p.1 = k
    · simp [aSet, h]
    · simp only [aSet, if_neg h, List.length_cons]
      omega

theorem length_aDelete_of_has [DecidableEq K] (m : List (K × V)) (k : K)
    (h : aHas m k = true) : (aDelete m k).length + 1 = m.length := by
  induction m with
  | nil => simp [aHas, aGet] at h
  | cons p ps ih =>
    by_cases hp : p.1 = k
    · simp [aDelete, hp]
    · simp only [aHas, aGet, if_neg hp] at h
      simp only [aDelete, if_neg hp, List.length_cons]
      have := ih h
      omega

theorem aSet_of_not_has [DecidableEq K] (m : List (K × V)) (k : K) (v : V)
    (h : aHas m k = false) : aSet m k v = m ++ [(k, v)] := by
  induction m with
  | nil => simp [aSet]
  | cons p ps ih =>
    by_cases hp : p.1 = k
    · simp [aHas, aGet, hp] at h
    · simp only [aHas, aGet, if_neg hp] at h
      simp [aSet, if_neg hp, ih h]

theorem aGet_eq_none_of_not_mem [DecidableEq K] (m : List (K × V)) (k : K)
    (h : k ∉ m.map Prod.fst) : aGet m k = none := by
  induction m with
  | nil => rfl
  | cons p ps ih =>
    simp only [List.map_cons, List.mem_cons] at h
    push_neg at h
    have hp : p.1 ≠ k := fun hc => h.1 hc.symm
    simp [aGet, hp, ih h.2]

theorem aGet_aDelete_of_nodup [DecidableEq K] (m : List (K × V)) (k : K)
    (h : (m.map Prod.fst).Nodup) : aGet (aDelete m k) k = none := by
  induction m with
  | nil => rfl
  | cons p ps ih =>
    simp only [List.map_cons, List.nodup_cons] at h
    by_cases hp : p.1 = k
    · subst hp
      simpa [aDelete] using aGet_eq_none_of_not_mem ps p.1 h.1
    · simp [aDelete, hp, aGet, ih h.2]

/-! ## Progress throttle

The worker's per-task `onProgress` closure (decryptWorker):

```
let lastUpdate = 0
const onProgress = koffi.register((current, total) => {
    const now = Date.now()
    if (now - lastUpdate > 100 || current === total || current === 1) {
        lastUpdate = now
        parentPort?.postMessage({ type: 'progress', id, current, total })
    }
}, ...)
```
-/

/-- One invocation of the native progress callback: the wall-clock value
`Date.now()` returns at that moment, and the `(current, total)` pair. -/
structure ProgressCall where
  now : Int
  current : Int
  total : Int
deriving DecidableEq

/-- One step of the throttle closure: returns whether a progress message
is posted for this invocation and the new `lastUpdate` value. -/
def onProgressStep (lastUpdate : Int) (c : ProgressCall) : Bool × Int :=
  if c.now - lastUpdate > 100 ∨ c.current = c.total ∨ c.current = 1 then
    (true, c.now)
  else
    (false, lastUpdate)

/-- Trace entry for one callback invocation: the invocation itself,
whether it was emitted, and the throttle state before and after it. -/
structure ThrottleEntry where
  call : ProgressCall
  emit : Bool
  lastBefore : Int
  lastAfter : Int
deriving DecidableEq

/-- Run of the throttle over a sequence of callback invocations within
one decrypt task, starting from a given `lastUpdate` (the closure
initialises it to `0`). -/
def throttleTrace : Int → List ProgressCall → List ThrottleEntry
  | _, [] => []
  | last, c :: cs =>
    let r := onProgressStep last c
    ⟨c, r.1, last, r.2⟩ :: throttleTrace r.2 cs

/-- The throttle policy in the spec's own phrasing, with the timing
boundary as the code implements it: always emit when `current = total`
or `current = 1`; otherwise emit only when strictly more than 100 ms
have elapsed since the last emission; the timestamp is updated on every
emission; suppressed invocations change nothing. -/
def specThrottleStep (lastEmit : Int) (c : ProgressCall) : Bool × Int :=
  if c.current = c.total ∨ c.current = 1 then (true, c.now)
  else if c.now - lastEmit > 100 then (true, c.now)
  else (false, lastEmit)

/-- Run of the spec-phrased throttle. -/
def specThrottleTrace : Int → List ProgressCall → List ThrottleEntry
  | _, [] => []
  | last, c :: cs =>
    let r := specThrottleStep last c
    ⟨c, r.1, last, r.2⟩ :: specThrottleTrace r.2 cs

/-- C1 (counterexample). The claim says a progress message is emitted
whenever at least 100 ms have elapsed since the last emission.  Run the
code's throttle on two invocations: the first (`current = 1`) emits and
sets `lastUpdate = 1000`; the second fires at `now = 1100` with
`current = 2`, `total = 10`, so exactly 100 ms have elapsed — at least
100 ms, `current ≠ 1`, `current ≠ total` — yet the code (which tests
`now - lastUpdate > 100`, strictly) suppresses it. -/
theorem throttle_claim_counterexample :
    (throttleTrace 0 [⟨1000, 1, 10⟩, ⟨1100, 2, 10⟩]).map ThrottleEntry.emit
      = [true, false] ∧
    (throttleTrace 0 [⟨1000, 1, 10⟩, ⟨1100, 2, 10⟩]).map ThrottleEntry.lastBefore
      = [0, 1000] ∧
    ((1100 : Int) - 1000 ≥ 100 ∧ (2 : Int) ≠ 1 ∧ (2 : Int) ≠ 10) := by
  decide

/-- C1 (amended). For every sequence of progress-callback invocations
within one decrypt task, the worker's throttle emits exactly when
`current = 1` or `current = total` or strictly more than 100 ms have
elapsed since the last emission (`now - lastUpdate > 100`), updating
`lastUpdate` on every emission; suppressed invocations emit nothing and
leave `lastUpdate` unchanged.  Formally: the code's throttle trace
coincides with the spec-phrased throttle trace carrying the strict
100 ms bound, from any initial timestamp. -/
theorem throttle_emit_characterization (startAt : Int) (cs : List ProgressCall) :
    throttleTrace startAt cs = specThrottleTrace startAt cs := by
  induction cs generalizing startAt with
  | nil => rfl
  | cons c cs ih =>
    have hstep : onProgressStep startAt c = specThrottleStep startAt c := by
      unfold onProgressStep specThrottleStep
      by_cases h1 : c.current = c.total <;> by_cases h2 : c.current = 1 <;>
        by_cases h3 : c.now - startAt > 100 <;>
          simp [h1, h2, h3]
    simp only [throttleTrace, specThrottleTrace, hstep, ih]

/-! ## Cross-thread protocol messages

The tagged payloads exchanged over `parentPort` / `worker.postMessage`.
(The worker's startup failure also posts an `error` payload without an
`id`; none of the per-task claims concern that pre-task message.)
-/

/-- `ProtocolMessage`: `{type:'ready'}`, `{type:'progress', id, current,
total}`, `{type:'success', id}`, `{type:'error', id, error}`. -/
inductive WMsg
  | ready
  | progress (id : String) (current total : Int)
  | success (id : String)
  | error (id : String) (error : String)
deriving DecidableEq

/-! ## Execution worker: the `decrypt` message handler (decryptWorker) -/

/-- Behaviour of the blocking native call
`Wcdb_DecryptDatabaseWithProgress(inputPath, outputPath, hexKey, cb)`:
the progress-callback invocations it performs, followed by either a
status code returned normally or an exception raised out of the call
(exceptions are modelled by their `String(err)` rendering). -/
inductive NativeOutcome
  | ret (calls : List ProgressCall) (code : Int)
  | exn (calls : List ProgressCall) (e : String)
deriving DecidableEq

/-- Environment one `decrypt` message observes: filesystem and
native-library behaviour. -/
structure WorkerEnv where
  /-- `fs.existsSync(outputDir)` -/
  dirExists : Bool
  /-- when the directory is missing, `some e` means `fs.mkdirSync` throws `e` -/
  mkdirExn : Option String
  /-- behaviour of the native decrypt call -/
  native : NativeOutcome
  /-- contents of the 512-byte buffer after `Wcdb_GetLastErrorMsg(buffer, 512)`
  (`Buffer.alloc` zero-fills, so the message is followed by NUL padding) -/
  errBuf : String
deriving DecidableEq

/-- Result of handling one `decrypt` message: the messages posted to the
parent port, whether the koffi-registered callback is still registered
when the handler finishes, and the exception escaping the handler, if
any. -/
structure HandlerResult where
  msgs : List WMsg
  registeredLeft : Bool
  thrown : Option String
deriving DecidableEq

/-- The progress messages actually posted for a given sequence of
callback invocations: the throttled subsequence, `lastUpdate` starting
at `0`. -/
def progressMsgs (id : String) (calls : List ProgressCall) : List WMsg :=
  ((throttleTrace 0 calls).filter ThrottleEntry.emit).map
    (fun e => WMsg.progress id e.call.current e.call.total)

/-- `buffer.toString('utf8').replace(/\0+$/, '')`: strips the trailing
NUL padding from the error buffer. -/
def stripTrailingNulls (s : String) : String :=
  String.mk ((s.data.reverse.dropWhile (fun ch => ch == Char.ofNat 0)).reverse)

/-- Steps 2–5 of the handler, after the output directory exists:
`koffi.register` the callback, invoke the native call, `koffi.unregister`
after it returns, then post `success` or the looked-up error message.
When the native call throws, the `unregister` line is never reached. -/
def decryptAfterMkdir (env : WorkerEnv) (id : String) : HandlerResult :=
  match env.native with
  | .exn calls e =>
    { msgs := progressMsgs id calls, registeredLeft := true, thrown := some e }
  | .ret calls code =>
    if code = 0 then
      { msgs := progressMsgs id calls ++ [WMsg.success id],
        registeredLeft := false, thrown := none }
    else
      let errorMsg := stripTrailingNulls env.errBuf
      { msgs := progressMsgs id calls ++
          [WMsg.error id (if errorMsg = "" then "ErrorCode: " ++ toString code else errorMsg)],
        registeredLeft := false, thrown := none }

/-- The body of the worker's `try` block for a `decrypt` message:
ensure the output directory exists (creating it when absent, which may
throw), then run the registered native call. -/
def decryptTryBody (env : WorkerEnv) (id : String) : HandlerResult :=
  if env.dirExists then decryptAfterMkdir env id
  else
    match env.mkdirExn with
    | some e => { msgs := [], registeredLeft := false, thrown := some e }
    | none => decryptAfterMkdir env id

/-- The full handler for a `decrypt` message: the `try` body wrapped in
`catch (err) { parentPort?.postMessage({ type: 'error', id, error: String(err) }) }`. -/
def handleDecryptMessage (env : WorkerEnv) (id : String) : HandlerResult :=
  let b := decryptTryBody env id
  match b.thrown with
  | none => b
  | some e =>
    { msgs := b.msgs ++ [WMsg.error id e],
      registeredLeft := b.registeredLeft, thrown := none }

/-- C4 (code bug). On the exit path where the native decrypt call raises
an exception, the worker's handler does not deregister the registered
progress callback: there is no `finally`, so `koffi.unregister` is
skipped and the trampoline resource leaks, while the `catch` block still
posts the task's `error` message.  Evaluated at the failing input
(directory present, native call throws). -/
theorem unregister_skipped_on_native_throw :
    (handleDecryptMessage ⟨true, none, NativeOutcome.exn [] "Error: native failure", ""⟩ "t1").registeredLeft = true ∧
    (handleDecryptMessage ⟨true, none, NativeOutcome.exn [] "Error: native failure", ""⟩ "t1").msgs
      = [WMsg.error "t1" "Error: native failure"] := by
  decide

/-- C5. Every exception raised while the worker handles a single
`decrypt` message — a throwing `fs.mkdirSync` as well as a throwing
native call — is caught by the handler's `catch` block and reported as
an `error` message carrying that task's id and the stringified
exception; no exception propagates out of the handler, so the worker
does not terminate because of one task's failure. -/
theorem worker_catches_all_exceptions (env : WorkerEnv) (id : String) :
    (handleDecryptMessage env id).thrown = none ∧
    (∀ e, (decryptTryBody env id).thrown = some e →
      (handleDecryptMessage env id).msgs
        = (decryptTryBody env id).msgs ++ [WMsg.error id e]) := by
  constructor
  · unfold handleDecryptMessage
    cases h : (decryptTryBody env id).thrown <;> simp [h]
  · intro e he
    unfold handleDecryptMessage
    simp [he]

/-- C5 witness: a concrete request whose directory creation throws is
resolved to an `error` message with the task's id and the exception. -/
theorem worker_catches_all_exceptions_witness :
    (handleDecryptMessage ⟨false, some "Error: EACCES mkdir", NativeOutcome.ret [] 0, ""⟩ "t2").thrown = none ∧
    (handleDecryptMessage ⟨false, some "Error: EACCES mkdir", NativeOutcome.ret [] 0, ""⟩ "t2").msgs
      = [WMsg.error "t2" "Error: EACCES mkdir"] := by
  have h := worker_catches_all_exceptions
    ⟨false, some "Error: EACCES mkdir", NativeOutcome.ret [] 0, ""⟩ "t2"
  refine ⟨h.1, ?_⟩
  have h2 := h.2 "Error: EACCES mkdir" (by decide)
  simpa using h2

/-- C7. When the native decrypt call returns a non-zero status code, the
worker posts an `error` message whose text is the last-error buffer
content with trailing NUL padding stripped, or the fallback
`"ErrorCode: <code>"` when the stripped message is empty. -/
theorem native_error_message (env : WorkerEnv) (id : String)
    (calls : List ProgressCall) (code : Int)
    (hdir : env.dirExists = true) (hnat : env.native = NativeOutcome.ret calls code)
    (hcode : code ≠ 0) :
    (handleDecryptMessage env id).msgs
      = progressMsgs id calls ++
        [WMsg.error id (if stripTrailingNulls env.errBuf = ""
                        then "ErrorCode: " ++ toString code
                        else stripTrailingNulls env.errBuf)] := by
  unfold handleDecryptMessage decryptTryBody decryptAfterMkdir
  simp [hdir, hnat, hcode]

/-- The error buffer of the spec's Scenario C: `"bad key"` followed by
NUL padding up to the 512-byte buffer size. -/
def badKeyBuffer : String :=
  "bad key" ++ String.mk (List.replicate 505 (Char.ofNat 0))

set_option maxRecDepth 4096 in
/-- C7 witness (Scenario C): the native call returns status 3 and the
error buffer holds `"bad key"` plus NUL padding; the worker posts
`error` with text `"bad key"` — padding stripped. -/
theorem native_error_message_witness :
    (handleDecryptMessage ⟨true, none, NativeOutcome.ret [] 3, badKeyBuffer⟩ "t3").msgs
      = [WMsg.error "t3" "bad key"] := by
  have h := native_error_message ⟨true, none, NativeOutcome.ret [] 3, badKeyBuffer⟩
    "t3" [] 3 rfl rfl (by decide)
  rw [h]
  decide

/-! ## Task dispatcher (NativeDecryptService)

State fields mirror the class fields; `this.worker !== null` is the
`workerAlive` flag, the pending table `this.tasks` is an association
list, and `readyReceived` is a ghost observer recording whether a
`ready` message has been handled (the code only logs it). -/

/-- A pending-table entry `{ resolve, onProgress }`.  The `resolve`
function is modelled by emitted `DAction.resolve` actions, so the entry
records only whether a progress sink was supplied. -/
structure DTask where
  hasOnProgress : Bool
deriving DecidableEq

/-- The `{ success, error? }` value a task's promise resolves to. -/
structure DecryptResult where
  success : Bool
  error : Option String
deriving DecidableEq

/-- Observable effects of `handleWorkerMessage`: resolving a pending
promise, or invoking a task's progress sink. -/
inductive DAction
  | resolve (id : String) (r : DecryptResult)
  | progress (id : String) (current total : Int)
deriving DecidableEq

structure DispatcherState where
  /-- `this.worker !== null` -/
  workerAlive : Bool
  /-- `this.initialized` -/
  initialized : Bool
  /-- `this.initError` -/
  initError : Option String
  /-- `this.tasks` -/
  tasks : List (String × DTask)
  /-- ghost observer: a `ready` message has been handled -/
  readyReceived : Bool
deriving DecidableEq

/-- Field values at construction, before the constructor's `init()` call. -/
def initialState : DispatcherState := ⟨false, false, none, [], false⟩

/-- Environment one `init()` call observes: whether the DLL and worker
script path probes succeed, and whether `new Worker(...)` throws. -/
structure InitEnv where
  dllFound : Bool
  workerScriptFound : Bool
  spawnExn : Option String
deriving DecidableEq

/-- `NativeDecryptService.init`: locate the DLL and the worker script
(recording an `initError` when either is missing), start the worker
thread, and set `initialized`; a throwing `new Worker` is caught and
recorded.  Note `initialized` is set as soon as the worker is
constructed — before any `ready` message arrives. -/
def initService (s : DispatcherState) (env : InitEnv) : DispatcherState :=
  if s.initialized then s
  else if !env.dllFound then { s with initError := some "未找到 wcdb_decrypt.dll" }
  else if !env.workerScriptFound then { s with initError := some "未找到 decryptWorker.js" }
  else
    match env.spawnExn with
    | some e => { s with initError := some ("初始化失败: " ++ e) }
    | none => { s with workerAlive := true, initialized := true }

/-- The `worker.on('error', ...)` listener: records the error message. -/
def onWorkerError (s : DispatcherState) (e : String) : DispatcherState :=
  { s with initError := some ("Worker error: " ++ e) }

/-- The `worker.on('exit', ...)` listener: on a non-zero exit code,
drops the worker handle and clears `initialized`. -/
def onWorkerExit (s : DispatcherState) (code : Int) : DispatcherState :=
  if code ≠ 0 then { s with workerAlive := false, initialized := false } else s

/-- `NativeDecryptService.handleWorkerMessage`: `ready` is only logged;
every other message is looked up by id in the pending table and ignored
when absent; `success`/`error` resolve and remove the task; `progress`
invokes the task's sink when one was supplied. -/
def handleWorkerMessage (s : DispatcherState) (m : WMsg) :
    DispatcherState × List DAction :=
  match m with
  | .ready => ({ s with readyReceived := true }, [])
  | .success id =>
    match aGet s.tasks id with
    | none => (s, [])
    | some _ => ({ s with tasks := aDelete s.tasks id }, [.resolve id ⟨true, none⟩])
  | .error id e =>
    match aGet s.tasks id with
    | none => (s, [])
    | some _ => ({ s with tasks := aDelete s.tasks id }, [.resolve id ⟨false, some e⟩])
  | .progress id cur tot =>
    match aGet s.tasks id with
    | none => (s, [])
    | some t => (s, if t.hasOnProgress then [.progress id cur tot] else [])

/-- `NativeDecryptService.isAvailable`: `this.initialized && this.worker !== null`. -/
def isAvailable (s : DispatcherState) : Bool :=
  s.initialized && s.workerAlive

/-- Immediate outcome of `decryptDatabaseAsync`: an immediately-resolved
error result, or a `decrypt` request dispatched under the generated id
(the promise stays pending). -/
inductive SubmitOutcome
  | failed (error : String)
  | dispatched (id : String)
deriving DecidableEq

/-- `NativeDecryptService.decryptDatabaseAsync`.  `genId` is the string
`generateId()` returned — `Math.random().toString(36).substring(2, 15)`,
drawn with no reference to the pending table — supplied here by the
environment.  If the worker handle is gone, a restart is attempted only
when `initialized` is false and no `initError` is recorded; with no
worker the call resolves immediately with the recorded error.  Otherwise
the task is stored under `genId` (a `Map.set`, overwriting any entry
already there) and the request is posted. -/
def decryptDatabaseAsync (s : DispatcherState) (env : InitEnv) (genId : String)
    (hasOnProgress : Bool) : DispatcherState × SubmitOutcome :=
  let s1 := if !s.workerAlive then
              (if !s.initialized && s.initError.isNone then initService s env else s)
            else s
  if !s1.workerAlive then
    (s1, .failed (s1.initError.getD "Worker 未启动"))
  else
    ({ s1 with tasks := aSet s1.tasks genId ⟨hasOnProgress⟩ }, .dispatched genId)

/-- Events driving the dispatcher, for reachability arguments. -/
inductive DEvent
  | initCall (env : InitEnv)
  | workerError (e : String)
  | workerExit (code : Int)
  | message (m : WMsg)
  | submit (env : InitEnv) (genId : String) (hasOnProgress : Bool)
deriving DecidableEq

def stepD (s : DispatcherState) : DEvent → DispatcherState
  | .initCall env => initService s env
  | .workerError e => onWorkerError s e
  | .workerExit code => onWorkerExit s code
  | .message m => (handleWorkerMessage s m).1
  | .submit env genId hp => (decryptDatabaseAsync s env genId hp).1

def runD (s : DispatcherState) (es : List DEvent) : DispatcherState :=
  es.foldl stepD s

/-- An `init()` environment where every probe succeeds. -/
def goodEnv : InitEnv := ⟨true, true, none⟩

/-- C3 (counterexample). After a successful `init()` from the initial
state — the worker constructed, no message handled yet, in particular
no `ready` received — `isAvailable()` already returns `true`: the code
sets `initialized` at the end of `init()` and the `ready` handler only
logs. -/
theorem isAvailable_before_ready_counterexample :
    isAvailable (initService initialState goodEnv) = true ∧
    (initService initialState goodEnv).readyReceived = false := by
  decide

/-- C3 (amended). `isAvailable()` is `initialized && worker !== null`,
which becomes true as soon as `init()` succeeds in constructing the
worker — independent of the `ready` signal: handling any worker message
(including `ready`) never changes `isAvailable`, and after `init()` from
the initial state `isAvailable` is true exactly when the DLL and worker
script were found and `new Worker` did not throw. -/
theorem isAvailable_independent_of_ready :
    (∀ (s : DispatcherState) (m : WMsg),
      isAvailable (handleWorkerMessage s m).1 = isAvailable s) ∧
    (∀ env : InitEnv,
      isAvailable (initService initialState env)
        = (env.dllFound && env.workerScriptFound && env.spawnExn.isNone)) := by
  constructor
  · intro s m
    cases m with
    | ready => rfl
    | success id =>
      simp only [handleWorkerMessage]
      cases aGet s.tasks id <;> rfl
    | error id e =>
      simp only [handleWorkerMessage]
      cases aGet s.tasks id <;> rfl
    | progress id cur tot =>
      simp only [handleWorkerMessage]
      cases aGet s.tasks id <;> rfl
  · intro env
    rcases env with ⟨d, w, sp⟩
    cases d <;> cases w <;> cases sp <;> rfl

/-- The dispatcher state with one task pending under id `"a"`: a
successful `init()` followed by one submit for which `generateId()`
returned `"a"`. -/
def oneTaskState : DispatcherState :=
  (decryptDatabaseAsync (initService initialState goodEnv) goodEnv "a" false).1

/-- C2 (counterexample). `generateId` draws from `Math.random` with no
check against the pending table.  With `"a"` pending, a second submit
whose generated id is again `"a"` — a possible random outcome — is
dispatched under that very id, and the `Map.set` overwrites the pending
entry (the old task's resolve function is dropped).  So the generated id
can equal an id still present in the pending table at insertion. -/
theorem submit_id_reuse_counterexample :
    aHas oneTaskState.tasks "a" = true ∧
    (decryptDatabaseAsync oneTaskState goodEnv "a" true).2
      = SubmitOutcome.dispatched "a" ∧
    (decryptDatabaseAsync oneTaskState goodEnv "a" true).1.tasks
      = [("a", ⟨true⟩)] := by
  decide

/-- C2 (amended). The dispatcher performs no uniqueness check: whenever
the worker is alive, a submit stores its task under the generated id
unconditionally via `Map.set` and dispatches it — and when that id
already names a pending task, the `Map.set` overwrites the entry, so the
new task replaces the old one at that key. -/
theorem submit_no_uniqueness_check (s : DispatcherState) (env : InitEnv)
    (genId : String) (hp : Bool) (halive : s.workerAlive = true) :
    decryptDatabaseAsync s env genId hp
      = ({ s with tasks := aSet s.tasks genId ⟨hp⟩ }, SubmitOutcome.dispatched genId) ∧
    aGet (aSet s.tasks genId ⟨hp⟩) genId = some ⟨hp⟩ := by
  constructor
  · unfold decryptDatabaseAsync
    simp [halive]
  · exact aGet_aSet_self s.tasks genId ⟨hp⟩

/-- C2 amended witness: with `"a"` already pending and `generateId()`
returning `"a"` again, the submit dispatches and stores under `"a"`. -/
theorem submit_no_uniqueness_check_witness :
    decryptDatabaseAsync oneTaskState goodEnv "a" true
      = ({ oneTaskState with tasks := aSet oneTaskState.tasks "a" ⟨true⟩ },
         SubmitOutcome.dispatched "a") ∧
    aGet (aSet oneTaskState.tasks "a" ⟨true⟩) "a" = some ⟨true⟩ :=
  submit_no_uniqueness_check oneTaskState goodEnv "a" true (by decide)

/-- C6. For a `success` or `error` message whose id is pending (keys of
the table distinct, as produced by `Map.set`), `handleWorkerMessage`
resolves the task with `{success:true}` resp. `{success:false, error}`,
and removes it from the table — after handling, the id no longer
resolves.  For an unknown id the message is discarded: the state is
unchanged and no action is taken. -/
theorem handleWorkerMessage_terminal (s : DispatcherState) (id e : String)
    (hnd : (s.tasks.map Prod.fst).Nodup) :
    ((aGet s.tasks id).isSome = true →
      handleWorkerMessage s (WMsg.success id)
        = ({ s with tasks := aDelete s.tasks id }, [DAction.resolve id ⟨true, none⟩]) ∧
      handleWorkerMessage s (WMsg.error id e)
        = ({ s with tasks := aDelete s.tasks id }, [DAction.resolve id ⟨false, some e⟩]) ∧
      aGet (aDelete s.tasks id) id = none) ∧
    (aGet s.tasks id = none →
      handleWorkerMessage s (WMsg.success id) = (s, []) ∧
      handleWorkerMessage s (WMsg.error id e) = (s, [])) := by
  constructor
  · intro hsome
    cases hg : aGet s.tasks id with
    | none => rw [hg] at hsome; simp at hsome
    | some t =>
      refine ⟨?_, ?_, aGet_aDelete_of_nodup s.tasks id hnd⟩ <;>
        simp [handleWorkerMessage, hg]
  · intro hnone
    constructor <;> simp [handleWorkerMessage, hnone]

/-- C6 witness: with task `"a"` pending, a `success` for `"a"` resolves
`{success:true}` and empties the table; a `success` for unknown `"zz"`
leaves the state unchanged. -/
theorem handleWorkerMessage_terminal_witness :
    (handleWorkerMessage ⟨true, true, none, [("a", ⟨false⟩)], false⟩ (WMsg.success "a")
      = (⟨true, true, none, [], false⟩, [DAction.resolve "a" ⟨true, none⟩])) ∧
    (handleWorkerMessage ⟨true, true, none, [("a", ⟨false⟩)], false⟩ (WMsg.success "zz")
      = (⟨true, true, none, [("a", ⟨false⟩)], false⟩, [])) := by
  have h := handleWorkerMessage_terminal ⟨true, true, none, [("a", ⟨false⟩)], false⟩
    "a" "x" (by decide)
  have h2 := handleWorkerMessage_terminal ⟨true, true, none, [("a", ⟨false⟩)], false⟩
    "zz" "x" (by decide)
  have ha := (h.1 (by decide)).1
  have hz := (h2.2 (by decide)).1
  constructor
  · rw [ha]; decide
  · rw [hz]

/-- The state after a successful `init()` and a clean crash: the worker
exited with code 1 and no `error` event fired, so `initError` is still
`none`. -/
def crashedClean : DispatcherState :=
  runD initialState [DEvent.initCall goodEnv, DEvent.workerExit 1]

/-- The state after a successful `init()`, a worker `error` event, and
then an abnormal exit with code 1: `initError` is recorded. -/
def crashedWithError : DispatcherState :=
  runD initialState
    [DEvent.initCall goodEnv, DEvent.workerError "boom", DEvent.workerExit 1]

/-- C8 (counterexample). A worker `error` event sets `initError`; after
the subsequent abnormal exit (code 1), the next submit does **not**
trigger a fresh initialization — the guard `!this.initialized &&
!this.initError` fails — even though a fresh `init()` would succeed: the
submit resolves immediately with the stale error and no worker is
started. -/
theorem crash_restart_counterexample :
    crashedWithError.workerAlive = false ∧
    crashedWithError.initialized = false ∧
    (decryptDatabaseAsync crashedWithError goodEnv "a" false).2
      = SubmitOutcome.failed "Worker error: boom" ∧
    (decryptDatabaseAsync crashedWithError goodEnv "a" false).1.workerAlive = false := by
  decide

/-- C8 (amended). An abnormal worker exit (non-zero code) drops the
worker handle and clears `initialized`.  From such a state the next
submit triggers a fresh initialization only when no `initError` is
recorded — in which case, with the probes succeeding, a new worker is
started and the request dispatched; when an `initError` is recorded
(e.g. from a worker `error` event), the submit resolves immediately with
that error and no restart is attempted. -/
theorem submit_restart_conditions (s : DispatcherState) (env : InitEnv)
    (genId : String) (hp : Bool)
    (hW : s.workerAlive = false) (hI : s.initialized = false) :
    (∀ (s0 : DispatcherState) (code : Int), code ≠ 0 →
      (onWorkerExit s0 code).workerAlive = false ∧
      (onWorkerExit s0 code).initialized = false) ∧
    (s.initError = none → env.dllFound = true → env.workerScriptFound = true →
      env.spawnExn = none →
      (decryptDatabaseAsync s env genId hp).1.workerAlive = true ∧
      (decryptDatabaseAsync s env genId hp).2 = SubmitOutcome.dispatched genId) ∧
    (∀ e, s.initError = some e →
      (decryptDatabaseAsync s env genId hp).1 = s ∧
      (decryptDatabaseAsync s env genId hp).2 = SubmitOutcome.failed e) := by
  refine ⟨?_, ?_, ?_⟩
  · intro s0 code hc
    constructor <;> simp [onWorkerExit, hc]
  · intro hE hd hw hs
    unfold decryptDatabaseAsync initService
    simp [hW, hI, hE, hd, hw, hs]
  · intro e hE
    unfold decryptDatabaseAsync
    simp [hW, hI, hE]

/-- C8 amended witness: from the cleanly-crashed state, a submit with a
good environment restarts the worker and dispatches; from the crashed
state with a recorded error, it fails with that error and the state is
unchanged. -/
theorem submit_restart_conditions_witness :
    ((decryptDatabaseAsync crashedClean goodEnv "b" false).1.workerAlive = true ∧
      (decryptDatabaseAsync crashedClean goodEnv "b" false).2
        = SubmitOutcome.dispatched "b") ∧
    ((decryptDatabaseAsync crashedWithError goodEnv "b" false).1 = crashedWithError ∧
      (decryptDatabaseAsync crashedWithError goodEnv "b" false).2
        = SubmitOutcome.failed "Worker error: boom") := by
  constructor
  · exact (submit_restart_conditions crashedClean goodEnv "b" false
      (by decide) (by decide)).2.1 (by decide) rfl rfl rfl
  · exact (submit_restart_conditions crashedWithError goodEnv "b" false
      (by decide) (by decide)).2.2 "Worker error: boom" (by decide)

/-! ## WeChatDecryptService -/

/-- `WeChatDecryptService.validateKey`: "目前未实现单独的验证逻辑" — the
body is `return true`. -/
def validateKey (dbPath hexKey : String) : Bool :=
  true

/-- C9. `validateKey` returns `true` for every pair of inputs — it
performs no validation at all, so a caller can never use it to detect a
wrong key. -/
theorem validateKey_always_true (dbPath hexKey : String) :
    validateKey dbPath hexKey = true :=
  rfl

/-! ## LRUCache

The bounded key-value cache.  Backed by a JS `Map`: the association
list is in insertion order, so its head is the oldest (least recently
used) entry — `get` refreshes an entry by delete-then-set, moving it to
the end, and `set` evicts the map's first key when a new key would
exceed the capacity. -/

structure LRUCache (K V : Type) where
  capacity : Nat
  cache : List (K × V)

/-- `new LRUCache(capacity)`: empty map. -/
def LRUCache.empty (cap : Nat) : LRUCache K V :=
  ⟨cap, []⟩

/-- `LRUCache.get`: a hit deletes and re-adds the entry so it becomes
the newest; a miss returns `undefined` and changes nothing. -/
def LRUCache.get [DecidableEq K] (c : LRUCache K V) (k : K) :
    Option V × LRUCache K V :=
  match aGet c.cache k with
  | none => (none, c)
  | some v => (some v, { c with cache := aSet (aDelete c.cache k) k v })

/-- `LRUCache.set`: an existing key is deleted first (to be re-added at
the end); otherwise, at capacity, the first key of the map — the least
recently used — is deleted if one exists; finally the entry is added. -/
def LRUCache.set [DecidableEq K] (c : LRUCache K V) (k : K) (v : V) :
    LRUCache K V :=
  let cache1 :=
    if aHas c.cache k then aDelete c.cache k
    else if c.capacity ≤ c.cache.length then
      match c.cache.head? with
      | some p => aDelete c.cache p.1
      | none => c.cache
    else c.cache
  { c with cache := aSet cache1 k v }

/-- `LRUCache.clear`. -/
def LRUCache.clear (c : LRUCache K V) : LRUCache K V :=
  { c with cache := [] }

/-- `LRUCache.size`. -/
def LRUCache.size (c : LRUCache K V) : Nat :=
  c.cache.length

/-- A cache operation issued by a caller. -/
inductive LRUOp (K V : Type)
  | get (k : K)
  | set (k : K) (v : V)
  | clear

def lruStep [DecidableEq K] (c : LRUCache K V) : LRUOp K V → LRUCache K V
  | .get k => (LRUCache.get c k).2
  | .set k v => LRUCache.set c k v
  | .clear => LRUCache.clear c

def lruRun [DecidableEq K] (c : LRUCache K V) (ops : List (LRUOp K V)) :
    LRUCache K V :=
  ops.foldl lruStep c

theorem lruStep_capacity [DecidableEq K] (c : LRUCache K V) (op : LRUOp K V) :
    (lruStep c op).capacity = c.capacity := by
  cases op with
  | get k =>
    simp only [lruStep, LRUCache.get]
    cases aGet c.cache k <;> rfl
  | set k v => rfl
  | clear => rfl

theorem lruStep_size_le [DecidableEq K] (c : LRUCache K V) (op : LRUOp K V)
    (hcap : 0 < c.capacity) (h : c.cache.length ≤ c.capacity) :
    (lruStep c op).cache.length ≤ c.capacity := by
  cases op with
  | clear => simpa [lruStep, LRUCache.clear] using Nat.zero_le _
  | get k =>
    cases hg : aGet c.cache k with
    | none => simpa [lruStep, LRUCache.get, hg] using h
    | some v =>
      have hhas : aHas c.cache k = true := by simp [aHas, hg]
      have hdel := length_aDelete_of_has c.cache k hhas
      have hset := length_aSet_le (aDelete c.cache k) k v
      simp only [lruStep, LRUCache.get, hg]
      omega
  | set k v =>
    simp only [lruStep, LRUCache.set]
    by_cases hhas : aHas c.cache k = true
    · rw [if_pos hhas]
      have hdel := length_aDelete_of_has c.cache k hhas
      have hset := length_aSet_le (aDelete c.cache k) k v
      omega
    · rw [if_neg hhas]
      by_cases hfull : c.capacity ≤ c.cache.length
      · rw [if_pos hfull]
        have hlen : c.cache.length = c.capacity := Nat.le_antisymm h hfull
        cases hc : c.cache with
        | nil =>
          rw [hc] at hlen
          simp only [List.length_nil] at hlen
          omega
        | cons p ps =>
          simp only [List.head?_cons]
          have hdel : aDelete (p :: ps) p.1 = ps := by simp [aDelete]
          rw [hdel]
          have hset := length_aSet_le ps k v
          rw [hc] at hlen
          simp only [List.length_cons] at hlen
          omega
      · rw [if_neg hfull]
        have hset := length_aSet_le c.cache k v
        omega

theorem lruRun_size_le [DecidableEq K] (ops : List (LRUOp K V))
    (c : LRUCache K V) (hcap : 0 < c.capacity) (h : c.cache.length ≤ c.capacity) :
    (lruRun c ops).cache.length ≤ c.capacity := by
  induction ops generalizing c with
  | nil => simpa [lruRun] using h
  | cons op ops ih =>
    have hcap1 : 0 < (lruStep c op).capacity := by rw [lruStep_capacity]; exact hcap
    have h1 : (lruStep c op).cache.length ≤ (lruStep c op).capacity := by
      rw [lruStep_capacity]; exact lruStep_size_le c op hcap h
    have := ih (lruStep c op) hcap1 h1
    rw [lruStep_capacity] at this
    simpa [lruRun] using this

/-- C10. For every `LRUCache` of positive capacity: (1) after any
sequence of `get`/`set`/`clear` operations from the freshly-constructed
cache, the size never exceeds the capacity; and (2) a `set` of a new key
on a full cache evicts exactly the least-recently-used entry — the head
of the insertion/refresh-ordered map — and appends the new entry at the
newest position. -/
theorem lru_size_bound_and_eviction {K V : Type} [DecidableEq K]
    (cap : Nat) (ops : List (LRUOp K V)) (c : LRUCache K V) (k : K) (v : V)
    (hcap : 0 < cap) (hfull : c.cache.length = c.capacity)
    (hnew : aHas c.cache k = false) :
    (lruRun (LRUCache.empty cap) ops).cache.length ≤ cap ∧
    (LRUCache.set c k v).cache = c.cache.tail ++ [(k, v)] := by
  constructor
  · exact lruRun_size_le ops (LRUCache.empty cap) hcap (Nat.zero_le _)
  · simp only [LRUCache.set, hnew, Bool.false_eq_true, if_false,
      le_of_eq hfull.symm, if_pos]
    cases hc : c.cache with
    | nil =>
      simp [aSet]
    | cons p ps =>
      have hdel : aDelete (p :: ps) p.1 = ps := by simp [aDelete]
      have hps : aHas ps k = false := by
        by_cases hp : p.1 = k <;> simp [aHas, aGet, hp] at hnew ⊢
        · rw [hc] at hnew; simp [aHas, aGet, hp] at hnew
        · rw [hc] at hnew
          simp [aHas, aGet, hp] at hnew
          simpa [aHas] using hnew
      simp only [List.head?_cons, hdel, List.tail_cons]
      exact aSet_of_not_has ps k v hps

/-- C10 witness: capacity 2; four operations (two inserts, a refreshing
`get`, and an evicting insert) keep the size within 2; and on the full
cache `[(1,10),(2,20)]` a `set` of the new key `3` evicts the oldest
entry `(1,10)`. -/
theorem lru_size_bound_and_eviction_witness :
    (lruRun (LRUCache.empty 2)
      [LRUOp.set 1 10, LRUOp.set 2 20, LRUOp.get 1, LRUOp.set 3 30]).cache.length ≤ 2 ∧
    (LRUCache.set (⟨2, [(1, 10), (2, 20)]⟩ : LRUCache Nat Nat) 3 30).cache
      = [(2, 20), (3, 30)] := by
  have h := lru_size_bound_and_eviction 2
    [LRUOp.set 1 10, LRUOp.set 2 20, LRUOp.get 1, LRUOp.set 3 30]
    (⟨2, [(1, 10), (2, 20)]⟩ : LRUCache Nat Nat) 3 30
    (by decide) (by decide) (by decide)
  exact ⟨h.1, by rw [h.2]; rfl⟩

end CipherTalk
